import Mathlib

/-!
Verification of the goclip keystroke-synthesis engine against its
natural-language specification.

The definitions below are a shallow embedding of the Go source
(`main.go`, the Windows backend, whose line numbers the claims cite, and
`config/config.go`).  OS calls are modelled explicitly:

* `SendInput` is modelled by an oracle `ok : Nat → Bool` giving the
  success/failure of the n-th `SendInput` invocation of a run; a failing
  call inserts no events (as on Windows, where a 0 return means nothing
  was injected).  The machine state `SynthSt` records the number of
  `SendInput` calls made and the trace of keyboard events emitted.
* The OS keyboard-layout table (`VkKeyScanExW` / `MapVirtualKeyExW`
  responses) is an abstract `Layout` value.
* Window titles and process names are lists of Unicode code points;
  Go's `strings.ToLower` / whitespace tables are abstracted as a
  parameter `StrOps`, since their exact Unicode contents do not affect
  any claim.
-/

/-- One keyboard event as inserted by `SendInput` (`main.go`):
a virtual-key event (`pressVK`), a scan-code event with extended flag
(`sendScan`), or a `KEYEVENTF_UNICODE` event (`sendUnicodeUnit`). -/
inductive Ev where
  | vk (code : Nat) (down : Bool)
  | scan (sc : Nat) (ext : Bool) (down : Bool)
  | uni (u : Nat) (down : Bool)
deriving DecidableEq

/-- Synthesizer-visible machine state: how many `SendInput` calls were
made so far (the oracle index) and the events actually inserted. -/
structure SynthSt where
  calls : Nat
  trace : List Ev
deriving DecidableEq

/-- One `sendInputCall` (`main.go:1241`) carrying the events `evs`.
If the oracle accepts the call the events are appended to the trace;
a failed call inserts nothing.  Returns the new state and success. -/
def sendInput1 (ok : Nat → Bool) (evs : List Ev) (s : SynthSt) : SynthSt × Bool :=
  if ok s.calls then (⟨s.calls + 1, s.trace ++ evs⟩, true)
  else (⟨s.calls + 1, s.trace⟩, false)

/-- `pressVK` (`main.go:1275`): one virtual-key down/up event. -/
def pressVK (vk : Nat) (down : Bool) (ok : Nat → Bool) (s : SynthSt) : SynthSt × Bool :=
  sendInput1 ok [Ev.vk vk down] s

/-- `sendScan` (`main.go:1307`): one scan-code event, optionally with
the extended-key flag. -/
def sendScan (sc : Nat) (ext : Bool) (down : Bool) (ok : Nat → Bool) (s : SynthSt) :
    SynthSt × Bool :=
  sendInput1 ok [Ev.scan sc ext down] s

/-- `sendUnicodeUnit` (`main.go:1256`): a `KEYEVENTF_UNICODE` press and
release of one UTF-16 code unit, batched in a single `SendInput` call. -/
def sendUnicodeUnit (u : Nat) (ok : Nat → Bool) (s : SynthSt) : SynthSt × Bool :=
  sendInput1 ok [Ev.uni u true, Ev.uni u false] s

/-- `tapScan` (`main.go:1326`): press then release a scan code,
aborting after a failed press. -/
def tapScan (sc : Nat) (ext : Bool) (ok : Nat → Bool) (s : SynthSt) : SynthSt × Bool :=
  let p := sendScan sc ext true ok s
  if p.2 = false then p
  else sendScan sc ext false ok p.1

/-- The OS keyboard-layout table held behind an HKL: the response of
`VkKeyScanExW` (a `(virtual key, modifier byte)` pair, `none` for -1)
and of `MapVirtualKeyExW` (0 when no scan code exists). -/
structure Layout where
  vkScanMap : Nat → Option (Nat × Nat)
  vkToSc : Nat → Nat

/-- `vkKeyScanEx` (`main.go:1413`): runes above 0xFFFF are rejected
before the OS is consulted; otherwise the layout table answers. -/
def vkKeyScanEx (r : Nat) (hkl : Layout) : Option (Nat × Nat) :=
  if 0xFFFF < r then none else hkl.vkScanMap r

/-- `mapVirtualKeyEx` (`main.go:1336`). -/
def mapVirtualKeyEx (vk : Nat) (hkl : Layout) : Nat :=
  hkl.vkToSc vk

/-- `isExtendedVK` (`main.go:1473`): arrows, PgUp/PgDn/Home/End,
Insert/Delete need the extended flag. -/
def isExtendedVK (vk : Nat) : Bool :=
  (0x21 ≤ vk && vk ≤ 0x28) || vk = 0x2D || vk = 0x2E

/-- UTF-16 encoding of one rune, as produced by Go's `utf16.Encode`
inside `windows.UTF16FromString`: BMP scalars are one unit, runes in
the surrogate gap or beyond U+10FFFF become U+FFFD, and supplementary
runes become a high/low surrogate pair in that order. -/
def utf16Units (r : Nat) : List Nat :=
  if r < 0xD800 then [r]
  else if r < 0xE000 then [0xFFFD]
  else if r < 0x10000 then [r]
  else if r ≤ 0x10FFFF then
    [0xD800 + (r - 0x10000) / 0x400, 0xDC00 + (r - 0x10000) % 0x400]
  else [0xFFFD]

/-- The loop of `sendCharPhysicalFallback` (`main.go:1442`): send each
UTF-16 unit, skipping NUL units, aborting on the first failure. -/
def sendUnits (ok : Nat → Bool) : List Nat → SynthSt → SynthSt × Bool
  | [], s => (s, true)
  | u :: rest, s =>
    if u = 0 then sendUnits ok rest s
    else
      let p := sendUnicodeUnit u ok s
      if p.2 = false then (p.1, false)
      else sendUnits ok rest p.1

/-- `sendCharPhysicalFallback` (`main.go:1436`): `UTF16FromString`
fails on an interior NUL (rune 0) before anything is sent; otherwise
the rune's UTF-16 units (with the terminating NUL, which the loop
skips) are sent one unit per `SendInput` call. -/
def sendCharPhysicalFallback (r : Nat) (ok : Nat → Bool) (s : SynthSt) : SynthSt × Bool :=
  if r = 0 then (s, false)
  else sendUnits ok (utf16Units r ++ [0]) s

/-- `releaseModifiers` (`main.go:1454`): when both Ctrl and Alt bits
are set, release the right-Alt AltGr scan code (0x38, extended);
otherwise release Alt then Ctrl individually; finally release Shift.
Errors of the release calls are ignored (`_ =` in the source) but the
calls still consume oracle indices. -/
def releaseModifiers (shift : Nat) (ok : Nat → Bool) (s : SynthSt) : SynthSt :=
  let s1 :=
    if shift &&& 0x06 = 0x06 then (sendScan 0x38 true false ok s).1
    else
      let sa := if shift &&& 0x04 ≠ 0 then (pressVK 0x12 false ok s).1 else s
      if shift &&& 0x02 ≠ 0 then (pressVK 0x11 false ok sa).1 else sa
  if shift &&& 0x01 ≠ 0 then (pressVK 0x10 false ok s1).1 else s1

/-- Tail of `sendCharPhysical` (`main.go:1520-1526`): tap the key's
scan code, then release the modifiers unconditionally — also on the
error path of the tap. -/
def sendCharTap (sc : Nat) (ext : Bool) (shift : Nat) (ok : Nat → Bool) (s : SynthSt) :
    SynthSt × Bool :=
  let pt := tapScan sc ext ok s
  (releaseModifiers shift ok pt.1, pt.2)

/-- Body of `sendCharPhysical` after a successful mapping
(`main.go:1495-1526`).  Shift (bit 0) is pressed first; if both Ctrl
and Alt bits are set the right-Alt AltGr scan code is pressed (with
`releaseModifiers` on its error path), otherwise Ctrl (bit 1) and Alt
(bit 2) are pressed individually — and on *their* error paths the
source returns the error without any release.  Then the key is tapped
and the modifiers released. -/
def sendCharCore (sc : Nat) (ext : Bool) (shift : Nat) (ok : Nat → Bool) (s : SynthSt) :
    SynthSt × Bool :=
  let p0 := if shift &&& 0x01 ≠ 0 then pressVK 0x10 true ok s else (s, true)
  if p0.2 = false then (p0.1, false)
  else
    if shift &&& 0x06 = 0x06 then
      let p1 := sendScan 0x38 true true ok p0.1
      if p1.2 = false then (releaseModifiers shift ok p1.1, false)
      else sendCharTap sc ext shift ok p1.1
    else
      let p1 := if shift &&& 0x02 ≠ 0 then pressVK 0x11 true ok p0.1 else (p0.1, true)
      if p1.2 = false then (p1.1, false)
      else
        let p2 := if shift &&& 0x04 ≠ 0 then pressVK 0x12 true ok p1.1 else (p1.1, true)
        if p2.2 = false then (p2.1, false)
        else sendCharTap sc ext shift ok p2.1

/-- `sendCharPhysical` (`main.go:1486`): map the rune under the layout;
unmappable runes (including everything above the BMP) go through the
Unicode fallback, mapped runes through the modifier/tap sequence. -/
def sendCharPhysical (r : Nat) (hkl : Layout) (ok : Nat → Bool) (s : SynthSt) :
    SynthSt × Bool :=
  match vkKeyScanEx r hkl with
  | none => sendCharPhysicalFallback r ok s
  | some (vk, shift) =>
    if mapVirtualKeyEx vk hkl = 0 then sendCharPhysicalFallback r ok s
    else sendCharCore (mapVirtualKeyEx vk hkl) (isExtendedVK vk) shift ok s

/-- `sendEnter` (`main.go:1428`): tap the Enter scan code for the
layout, falling back to the US scan code 28 when the mapping is 0. -/
def sendEnter (hkl : Layout) (ok : Nat → Bool) (s : SynthSt) : SynthSt × Bool :=
  if mapVirtualKeyEx 0x0D hkl = 0 then tapScan 28 false ok s
  else tapScan (mapVirtualKeyEx 0x0D hkl) false ok s

/-- `strings.ReplaceAll(text, "\r\n", "\n")` (`main.go:1531`): one
left-to-right, non-overlapping pass; scanning continues after each
replacement (so `"\r\r\n"` becomes `"\r\n"`, not `"\n"`). -/
def crlfNorm : List Nat → List Nat
  | [] => []
  | 13 :: 10 :: rest => 10 :: crlfNorm rest
  | c :: rest => c :: crlfNorm rest

/-- Outcome of one `sendText` run: final synthesizer state, the runes
whose key events were synthesized (in order), the number of times the
stop predicate was evaluated, and whether the returned error was nil
(`res = true` means a nil error). -/
structure STRes where
  st : SynthSt
  sent : List Nat
  evals : Nat
  res : Bool
deriving DecidableEq

/-- The per-character loop of `sendText` (`main.go:1533-1550`): before
each rune the stop predicate is evaluated once (modelled as a function
of the evaluation index); a true answer returns nil immediately;
newlines go to `sendEnter`, everything else to `sendCharPhysical`; a
synthesis error is returned at once. -/
def sendTextLoop (hkl : Layout) (stop : Nat → Bool) (ok : Nat → Bool) :
    List Nat → Nat → SynthSt → STRes
  | [], k, s => ⟨s, [], k, true⟩
  | r :: rest, k, s =>
    if stop k then ⟨s, [], k + 1, true⟩
    else if r = 10 then
      let p := sendEnter hkl ok s
      if p.2 = false then ⟨p.1, [r], k + 1, false⟩
      else
        let q := sendTextLoop hkl stop ok rest (k + 1) p.1
        ⟨q.st, r :: q.sent, q.evals, q.res⟩
    else
      let p := sendCharPhysical r hkl ok s
      if p.2 = false then ⟨p.1, [r], k + 1, false⟩
      else
        let q := sendTextLoop hkl stop ok rest (k + 1) p.1
        ⟨q.st, r :: q.sent, q.evals, q.res⟩

/-- `sendText` (`main.go:1529`): normalize CRLF to LF, then run the
per-character loop from a fresh synthesizer state.  The layout handle
obtained from `loadHKLByName` is the abstract `hkl`. -/
def sendText (t : List Nat) (hkl : Layout) (stop : Nat → Bool) (ok : Nat → Bool) : STRes :=
  sendTextLoop hkl stop ok (crlfNorm t) 0 ⟨0, []⟩

/-- The cancellation predicate actually installed by the GUI
(`main.go:1832-1837`): it reads the explicit stop flag and nothing
else — the foreground window and the `AbortOnFocusChange` setting are
not consulted. -/
def shouldStopGo (typingStopRequested : Bool) : Bool :=
  typingStopRequested

/-- Modelled from the spec: the cancellation predicate claimed in
§4.6, `explicitStopRequested() OR (abortOnFocusChange AND
currentForegroundWindow() != targetWindow)`.  No such predicate exists
in the source; this definition follows the spec's words and is used
only to compare the claim against `shouldStopGo`. -/
def cancelPredClaim (stopRequested abortOnFocusChange : Bool) (fg target : Nat) : Bool :=
  stopRequested || (abortOnFocusChange && decide (fg ≠ target))

/-- Outcome classification of the typing goroutine
(`main.go:1918-1925`): the re-read stop flag takes precedence over the
error returned by `sendText`. -/
inductive Outcome where
  | stopped
  | errorOut
  | typed
deriving DecidableEq

/-- `main.go:1918-1925`. -/
def typeOutcome (canceled : Bool) (errOccurred : Bool) : Outcome :=
  if canceled then .stopped
  else if errOccurred then .errorOut
  else .typed

/-- The always-succeeding `SendInput` oracle (no OS failures). -/
def okAll : Nat → Bool := fun _ => true

/-- A stop predicate that never fires. -/
def stopNever : Nat → Bool := fun _ => false

/-- Modifier press events: left Shift/Ctrl/Alt virtual keys going down,
or the right-Alt AltGr scan code (0x38, extended) going down. -/
def isModPress : Ev → Bool
  | .vk 0x10 true => true
  | .vk 0x11 true => true
  | .vk 0x12 true => true
  | .scan 0x38 true true => true
  | _ => false

/-- Modifier release events, mirror of `isModPress`. -/
def isModRelease : Ev → Bool
  | .vk 0x10 false => true
  | .vk 0x11 false => true
  | .vk 0x12 false => true
  | .scan 0x38 true false => true
  | _ => false

/-- Number of modifier press events in a trace. -/
def modPresses (t : List Ev) : Nat :=
  (t.filter isModPress).length

/-- Number of modifier release events in a trace. -/
def modReleases (t : List Ev) : Nat :=
  (t.filter isModRelease).length

/-- The individual modifier key-down events of `sendCharPhysical`'s
non-AltGr branch (`main.go:1495-1518`): Shift, then Ctrl, then Alt,
each only when its bit is set. -/
def modDownsIndiv (shift : Nat) : List Ev :=
  (if shift &&& 0x01 ≠ 0 then [Ev.vk 0x10 true] else [])
    ++ (if shift &&& 0x02 ≠ 0 then [Ev.vk 0x11 true] else [])
    ++ (if shift &&& 0x04 ≠ 0 then [Ev.vk 0x12 true] else [])

/-- The individual modifier key-up events of `releaseModifiers`'s
non-AltGr branch (`main.go:1459-1470`): Alt, then Ctrl, then Shift. -/
def modUpsIndiv (shift : Nat) : List Ev :=
  (if shift &&& 0x04 ≠ 0 then [Ev.vk 0x12 false] else [])
    ++ (if shift &&& 0x02 ≠ 0 then [Ev.vk 0x11 false] else [])
    ++ (if shift &&& 0x01 ≠ 0 then [Ev.vk 0x10 false] else [])

/-- A layout for concrete evaluations: one rune (228, 'ä') maps to
virtual key 222 with modifier byte 0x03 (Shift+Ctrl), which has scan
code 40. -/
def layoutShiftCtrl : Layout :=
  { vkScanMap := fun r => if r = 228 then some (222, 0x03) else none
    vkToSc := fun vk => if vk = 222 then 40 else 0 }

/-- A layout mapping nothing: every rune takes the Unicode fallback. -/
def layoutEmpty : Layout :=
  { vkScanMap := fun _ => none, vkToSc := fun _ => 0 }

/-- A layout for concrete evaluations: rune 64 ('@' on German layouts)
maps to virtual key 81 ('Q') with modifier byte 0x06 (AltGr), scan
code 16. -/
def layoutAltGr : Layout :=
  { vkScanMap := fun r => if r = 64 then some (81, 0x06) else none
    vkToSc := fun vk => if vk = 81 then 16 else 0 }

/-- The `"Default (Auto)"` branch of `getPerCharDelay`
(`main.go:1674-1707`), in milliseconds: count runes and lines (1 plus
the number of `'\n'`), return 0 for short texts, otherwise the larger
of the line count and `runeCount / 200`, raised to at least 10 and
capped at 50. -/
def getPerCharDelayAuto (text : List Nat) : Nat :=
  let runeCount := text.length
  let lines := 1 + (text.filter (fun c => c = 10)).length
  if runeCount ≤ 200 ∧ lines ≤ 5 then 0
  else
    let msByLines := lines
    let msByChars := runeCount / 200
    let ms := if msByLines < msByChars then msByChars else msByLines
    let ms2 := if ms < 10 then 10 else ms
    if 50 < ms2 then 50 else ms2

/-- Unicode string-table operations that the Go runtime supplies
(`strings.ToLower` and the whitespace predicate behind
`strings.TrimSpace`), abstracted: their exact tables do not matter for
any claim. -/
structure StrOps where
  lower : Nat → Nat
  isSpace : Nat → Bool

/-- `strings.TrimSpace`: drop leading and trailing space characters. -/
def trimS (ops : StrOps) (l : List Nat) : List Nat :=
  ((l.dropWhile ops.isSpace).reverse.dropWhile ops.isSpace).reverse

/-- `strings.ToLower`. -/
def lowerS (ops : StrOps) (l : List Nat) : List Nat :=
  l.map ops.lower

/-- Whether `sub` occurs at the start of `hay` (`strings.HasPrefix`
shape used by `strings.Contains`). -/
def startsWithL : List Nat → List Nat → Bool
  | _, [] => true
  | [], _ :: _ => false
  | a :: as, b :: bs => a = b && startsWithL as bs

/-- `strings.Contains`: `sub` occurs somewhere inside `hay`. -/
def containsL (sub : List Nat) : List Nat → Bool
  | [] => startsWithL [] sub
  | c :: rest => startsWithL (c :: rest) sub || containsL sub rest

/-- Go's `<` on strings applied to the lowered titles
(`main.go:1230-1232`): lexicographic comparison; on UTF-8 strings byte
order coincides with code-point order. -/
def lexLess : List Nat → List Nat → Bool
  | [], [] => false
  | [], _ :: _ => true
  | _ :: _, [] => false
  | a :: as, b :: bs => a < b || (a = b && lexLess as bs)

/-- Code points of an ASCII literal from the source. -/
def strCodes (s : String) : List Nat :=
  s.toList.map Char.toNat

/-- `ignoredTitleSubstringsLower` (`main.go:1005-1009`). -/
def ignoredTitleSubstringsLower : List (List Nat) :=
  [strCodes "task switch", strCodes "program manager"]

/-- `ignoredProcessNamesLower` (`main.go:1000-1003`). -/
def ignoredProcessNamesLower : List (List Nat) :=
  [strCodes "goclip.exe"]

/-- One top-level window as the OS enumeration reports it:
`IsWindowVisible`, the `GetWindowText` title, and the lower-cased
process executable base name that `getWindowProcessExeBase` resolves
(`[]` when the process cannot be queried). -/
structure RawWin where
  hwnd : Nat
  visible : Bool
  title : List Nat
  exe : List Nat

/-- `windowInfo` (`main.go:992-995`). -/
structure WinInfo where
  hwnd : Nat
  title : List Nat
deriving DecidableEq

/-- `shouldIgnoreWindow` (`main.go:1193-1213`): empty trimmed title,
an ignored title substring (case-insensitive), the process itself, or
an ignored process name. -/
def shouldIgnoreWindow (ops : StrOps) (selfExe : List Nat) (title exe : List Nat) : Bool :=
  let t := lowerS ops (trimS ops title)
  if t = [] then true
  else if ignoredTitleSubstringsLower.any (fun sub => containsL sub t) then true
  else if exe ≠ [] && (exe = selfExe || ignoredProcessNamesLower.any (fun p => p = exe))
    then true
  else false

/-- The `sort.Slice` ordering of `enumWindows` as a non-strict relation:
`a` may precede `b` iff `b`'s lowered title is not strictly less than
`a`'s. -/
def winLe (ops : StrOps) (a b : WinInfo) : Bool :=
  !(lexLess (lowerS ops b.title) (lowerS ops a.title))

/-- `enumWindows` (`main.go:1215-1234`): keep visible, non-ignored
windows with their trimmed titles, then sort case-insensitively by
title.  (`sort.Slice` is modelled by insertion sort; the claims only
concern sortedness and membership, which hold for any correct sort.) -/
def enumWindows (ops : StrOps) (selfExe : List Nat) (ws : List RawWin) : List WinInfo :=
  let kept := ws.filterMap (fun w =>
    if w.visible && !(shouldIgnoreWindow ops selfExe w.title w.exe)
    then some ⟨w.hwnd, trimS ops w.title⟩ else none)
  List.insertionSort (fun a b => winLe ops a b = true) kept

/-- Result of the startup wiring of the foreground watcher
(`main.go:1804-1820`): the hook is installed or not; on error the only
action taken is showing the warning status ("falling back"); the
Windows source contains no polling tracker at all, so none is ever
started. -/
structure TrackerStartup where
  hookInstalled : Bool
  warningStatusShown : Bool
  pollingStarted : Bool
deriving DecidableEq

/-- `main.go:1805-1817`. -/
def startupForegroundTracking (hookInstallOk : Bool) : TrackerStartup :=
  { hookInstalled := hookInstallOk
    warningStatusShown := !hookInstallOk
    pollingStarted := false }

/-- One OS foreground-change notification as the hook callback sees it
(`main.go:1061-1079`). -/
structure FgEvent where
  hwnd : Nat
  title : List Nat
  exe : List Nat

/-- The hook callback body (`main.go:1061-1079`): a null hwnd or an
empty/ignored title is dropped, otherwise `onChange` receives the
handle and trimmed title. -/
def foregroundCallback (ops : StrOps) (selfExe : List Nat) (e : FgEvent) :
    Option (Nat × List Nat) :=
  if e.hwnd = 0 then none
  else
    let t := trimS ops e.title
    if t ≠ [] ∧ shouldIgnoreWindow ops selfExe t e.exe = false then some (e.hwnd, t)
    else none

/-- The `onChange` notifications delivered for a sequence of OS
foreground changes after startup: with the hook installed, each event
goes through the callback; with the hook install failed there is no
event source at all — the Windows source has no polling fallback, so
no notification is ever delivered. -/
def foregroundNotifications (ops : StrOps) (selfExe : List Nat) (hookOk : Bool)
    (events : List FgEvent) : List (Nat × List Nat) :=
  if hookOk then events.filterMap (foregroundCallback ops selfExe)
  else []

/-- ASCII instantiation of the abstract string tables, for witnesses. -/
def asciiOps : StrOps :=
  { lower := fun c => if 65 ≤ c ∧ c ≤ 90 then c + 32 else c
    isSpace := fun c => c = 32 || c = 9 || c = 10 || c = 13 }

theorem sendInput1_okAll (evs : List Ev) (s : SynthSt) :
    sendInput1 okAll evs s = (⟨s.calls + 1, s.trace ++ evs⟩, true) := by
  simp [sendInput1, okAll]

theorem tapScan_okAll (sc : Nat) (ext : Bool) (s : SynthSt) :
    tapScan sc ext okAll s =
      (⟨s.calls + 2, s.trace ++ [Ev.scan sc ext true, Ev.scan sc ext false]⟩, true) := by
  simp [tapScan, sendScan, sendInput1_okAll]

theorem sendCharCore_okAll (sc : Nat) (ext : Bool) (shift : Nat) (s : SynthSt) :
    (sendCharCore sc ext shift okAll s).2 = true := by
  unfold sendCharCore sendCharTap
  split_ifs <;>
    simp_all [pressVK, sendScan, sendInput1_okAll, tapScan]

theorem sendCharCore_altgr (sc : Nat) (ext : Bool) (s : SynthSt) :
    sendCharCore sc ext 0x06 okAll s =
      (⟨s.calls + 4, s.trace ++ [Ev.scan 0x38 true true, Ev.scan sc ext true,
        Ev.scan sc ext false, Ev.scan 0x38 true false]⟩, true) := by
  simp [sendCharCore, sendCharTap, releaseModifiers, tapScan, sendScan, pressVK,
    sendInput1_okAll]

theorem sendCharCore_indiv (sc : Nat) (ext : Bool) (shift : Nat)
    (h : ¬shift &&& 0x06 = 0x06) (s : SynthSt) :
    (sendCharCore sc ext shift okAll s).1.trace =
      s.trace ++ modDownsIndiv shift ++ [Ev.scan sc ext true, Ev.scan sc ext false]
        ++ modUpsIndiv shift ∧
    (sendCharCore sc ext shift okAll s).2 = true := by
  by_cases h1 : shift % 2 = 1 <;> by_cases h2 : shift &&& 0x02 ≠ 0 <;>
    by_cases h4 : shift &&& 0x04 ≠ 0 <;>
      simp [sendCharCore, sendCharTap, releaseModifiers, tapScan, sendScan, pressVK,
        sendInput1_okAll, modDownsIndiv, modUpsIndiv, h, h1, h2, h4]

theorem sendCharPhysicalFallback_surrogate (r : Nat) (h1 : 0xFFFF < r)
    (h2 : r ≤ 0x10FFFF) (s : SynthSt) :
    sendCharPhysicalFallback r okAll s =
      (⟨s.calls + 2, s.trace ++
        [Ev.uni (0xD800 + (r - 0x10000) / 0x400) true,
         Ev.uni (0xD800 + (r - 0x10000) / 0x400) false,
         Ev.uni (0xDC00 + (r - 0x10000) % 0x400) true,
         Ev.uni (0xDC00 + (r - 0x10000) % 0x400) false]⟩, true) := by
  have hr0 : ¬r = 0 := by omega
  have hu : utf16Units r =
      [0xD800 + (r - 0x10000) / 0x400, 0xDC00 + (r - 0x10000) % 0x400] := by
    unfold utf16Units
    rw [if_neg (by omega), if_neg (by omega), if_neg (by omega), if_pos h2]
  have hhi : ¬0xD800 + (r - 0x10000) / 0x400 = 0 := by omega
  have hlo : ¬0xDC00 + (r - 0x10000) % 0x400 = 0 := by omega
  rw [sendCharPhysicalFallback, if_neg hr0, hu]
  simp [sendUnits, sendUnicodeUnit, sendInput1_okAll, hhi, hlo]

theorem sendUnits_okAll (us : List Nat) (s : SynthSt) : (sendUnits okAll us s).2 = true := by
  induction us generalizing s with
  | nil => rfl
  | cons u rest ih =>
    by_cases hu : u = 0 <;> simp [sendUnits, hu, sendUnicodeUnit, sendInput1_okAll, ih]

theorem sendCharPhysicalFallback_okAll (r : Nat) (hr : r ≠ 0) (s : SynthSt) :
    (sendCharPhysicalFallback r okAll s).2 = true := by
  simp [sendCharPhysicalFallback, hr, sendUnits_okAll]

theorem sendCharPhysical_okAll (r : Nat) (hkl : Layout) (hr : r ≠ 0) (s : SynthSt) :
    (sendCharPhysical r hkl okAll s).2 = true := by
  unfold sendCharPhysical
  cases h : vkKeyScanEx r hkl with
  | none => exact sendCharPhysicalFallback_okAll r hr s
  | some p =>
    obtain ⟨vk, shift⟩ := p
    by_cases hm : mapVirtualKeyEx vk hkl = 0 <;>
      simp [hm, sendCharPhysicalFallback_okAll r hr, sendCharCore_okAll]

theorem sendEnter_okAll (hkl : Layout) (s : SynthSt) :
    (sendEnter hkl okAll s).2 = true := by
  unfold sendEnter
  by_cases hm : mapVirtualKeyEx 0x0D hkl = 0 <;> simp [hm, tapScan_okAll]

theorem mem_crlfNorm {c : Nat} : ∀ {t : List Nat}, c ∈ crlfNorm t → c ∈ t := by
  intro t
  induction t using crlfNorm.induct with
  | case1 => simp [crlfNorm]
  | case2 rest ih =>
    intro h
    simp only [crlfNorm, List.mem_cons] at h ⊢
    rcases h with h | h
    · simp [h]
    · simp [ih h]
  | case3 c' rest h1 ih =>
    intro h
    simp only [crlfNorm, List.mem_cons] at h ⊢
    rcases h with h | h
    · simp [h]
    · simp [ih h]

theorem lexLess_asymm : ∀ x y : List Nat, lexLess x y = true → lexLess y x = false := by
  intro x
  induction x with
  | nil => intro y h; cases y <;> rfl
  | cons a as ih =>
    intro y h
    cases y with
    | nil => simp [lexLess] at h
    | cons b bs =>
      simp only [lexLess, Bool.or_eq_true, Bool.and_eq_true, decide_eq_true_eq] at h
      rw [← Bool.not_eq_true]
      intro hcon
      simp only [lexLess, Bool.or_eq_true, Bool.and_eq_true, decide_eq_true_eq] at hcon
      rcases h with h | ⟨he, hrec⟩ <;> rcases hcon with hc | ⟨hce, hcrec⟩
      · omega
      · omega
      · omega
      · subst he
        rw [ih bs hrec] at hcrec
        exact absurd hcrec (by simp)

theorem lexLess_trans : ∀ x y z : List Nat, lexLess x y = true → lexLess y z = true →
    lexLess x z = true := by
  intro x
  induction x with
  | nil =>
    intro y z hxy hyz
    cases y with
    | nil => simp [lexLess] at hxy
    | cons b bs =>
      cases z with
      | nil => simp [lexLess] at hyz
      | cons c cs => rfl
  | cons a as ih =>
    intro y z hxy hyz
    cases y with
    | nil => simp [lexLess] at hxy
    | cons b bs =>
      cases z with
      | nil => simp [lexLess] at hyz
      | cons c cs =>
        simp only [lexLess, Bool.or_eq_true, Bool.and_eq_true, decide_eq_true_eq] at hxy hyz ⊢
        rcases hxy with h1 | ⟨h1, hr1⟩ <;> rcases hyz with h2 | ⟨h2, hr2⟩
        · exact Or.inl (by omega)
        · exact Or.inl (by omega)
        · exact Or.inl (by omega)
        · exact Or.inr ⟨by omega, ih bs cs hr1 hr2⟩

theorem lexLess_connex : ∀ x y : List Nat, lexLess x y = false → lexLess y x = false →
    x = y := by
  intro x
  induction x with
  | nil =>
    intro y h1 h2
    cases y with
    | nil => rfl
    | cons b bs => simp [lexLess] at h1
  | cons a as ih =>
    intro y h1 h2
    cases y with
    | nil => simp [lexLess] at h2
    | cons b bs =>
      have hab : a = b := by
        by_contra hne
        rcases Nat.lt_or_ge a b with hlt | hge
        · revert h1; simp [lexLess, hlt]
        · have hlt : b < a := by omega
          revert h2; simp [lexLess, hlt]
      subst hab
      have h1' : lexLess as bs = false := by revert h1; simp [lexLess]
      have h2' : lexLess bs as = false := by revert h2; simp [lexLess]
      rw [ih bs h1' h2']

theorem winLe_total (ops : StrOps) (a b : WinInfo) :
    winLe ops a b = true ∨ winLe ops b a = true := by
  unfold winLe
  cases hb : lexLess (lowerS ops b.title) (lowerS ops a.title) with
  | false => left; rfl
  | true => right; rw [lexLess_asymm _ _ hb]; rfl

theorem winLe_trans (ops : StrOps) (a b c : WinInfo) (h1 : winLe ops a b = true)
    (h2 : winLe ops b c = true) : winLe ops a c = true := by
  unfold winLe at h1 h2 ⊢
  cases hca : lexLess (lowerS ops c.title) (lowerS ops a.title) with
  | false => rfl
  | true =>
    exfalso
    have h1' : lexLess (lowerS ops b.title) (lowerS ops a.title) = false := by
      cases hx : lexLess (lowerS ops b.title) (lowerS ops a.title) with
      | false => rfl
      | true => rw [hx] at h1; exact absurd h1 (by decide)
    have h2' : lexLess (lowerS ops c.title) (lowerS ops b.title) = false := by
      cases hx : lexLess (lowerS ops c.title) (lowerS ops b.title) with
      | false => rfl
      | true => rw [hx] at h2; exact absurd h2 (by decide)
    cases hbc : lexLess (lowerS ops b.title) (lowerS ops c.title) with
    | true =>
      have := lexLess_trans _ _ _ hbc hca
      rw [this] at h1'
      exact absurd h1' (by simp)
    | false =>
      have he := lexLess_connex _ _ hbc h2'
      rw [← he] at hca
      rw [hca] at h1'
      exact absurd h1' (by simp)

theorem shouldIgnoreWindow_false_facts (ops : StrOps) (selfExe title exe : List Nat)
    (hself : selfExe ≠ [])
    (h : shouldIgnoreWindow ops selfExe title exe = false) :
    trimS ops title ≠ [] ∧
    (∀ sub ∈ ignoredTitleSubstringsLower,
      containsL sub (lowerS ops (trimS ops title)) = false) ∧
    exe ≠ selfExe := by
  unfold shouldIgnoreWindow at h
  simp only [] at h
  by_cases h1 : lowerS ops (trimS ops title) = []
  · rw [if_pos h1] at h; exact absurd h (by simp)
  · rw [if_neg h1] at h
    by_cases h2 : (ignoredTitleSubstringsLower.any
        (fun sub => containsL sub (lowerS ops (trimS ops title)))) = true
    · rw [if_pos h2] at h; exact absurd h (by simp)
    · rw [if_neg h2] at h
      refine ⟨?_, ?_, ?_⟩
      · intro he
        exact h1 (by rw [he]; rfl)
      · intro sub hsub
        rw [List.any_eq_true] at h2
        push_neg at h2
        have := h2 sub hsub
        cases hx : containsL sub (lowerS ops (trimS ops title)) with
        | false => rfl
        | true => exact absurd hx this
      · intro he
        subst he
        by_cases h3 : (decide (exe ≠ []) && (decide (exe = exe) ||
            ignoredProcessNamesLower.any (fun p => p = exe))) = true
        · rw [if_pos h3] at h; exact absurd h (by simp)
        · apply h3
          simp [hself]

/-- Whether a CRLF pair occurs in the text. -/
def hasCRLF : List Nat → Bool
  | 13 :: 10 :: _ => true
  | _ :: rest => hasCRLF rest
  | [] => false

/-- Whether the cascading pattern CR CR LF occurs in the text: the one
shape on which a single `ReplaceAll` pass creates a new CRLF pair. -/
def hasCRRLF : List Nat → Bool
  | 13 :: 13 :: 10 :: _ => true
  | _ :: rest => hasCRRLF rest
  | [] => false

/-- Whether every carriage return in the text starts a CRLF pair
(texts "with CRLF line endings"). -/
def crlfOnly : List Nat → Bool
  | 13 :: 10 :: rest => crlfOnly rest
  | 13 :: _ => false
  | _ :: rest => crlfOnly rest
  | [] => true

theorem crlfNorm_cons (c : Nat) (rest : List Nat)
    (h : ∀ rest', c = 13 → rest = 10 :: rest' → False) :
    crlfNorm (c :: rest) = c :: crlfNorm rest := by
  rw [crlfNorm.eq_def]
  split
  · next heq => exact absurd heq (by simp)
  · next rest' heq =>
    exfalso
    injection heq with e1 e2
    exact h rest' e1 e2
  · next heq =>
    injection heq with e1 e2
    rw [← e1, ← e2]

theorem hasCRLF_cons (c : Nat) (rest : List Nat)
    (h : ∀ rest', c = 13 → rest = 10 :: rest' → False) :
    hasCRLF (c :: rest) = hasCRLF rest := by
  rw [hasCRLF.eq_def]
  split
  · next rest' heq =>
    exfalso
    injection heq with e1 e2
    exact h rest' e1 e2
  · next heq =>
    injection heq with e1 e2
    rw [← e2]
  · next heq => exact absurd heq (by simp)

theorem hasCRRLF_cons_false {c : Nat} {rest : List Nat}
    (h : hasCRRLF (c :: rest) = false) : hasCRRLF rest = false := by
  rw [hasCRRLF.eq_def] at h
  revert h
  split
  · intro h; exact absurd h (by simp)
  · next heq =>
    intro h
    injection heq with e1 e2
    rw [e2]
    exact h
  · next heq => intro h; exact absurd heq (by simp)

theorem crlfOnly_cons_ne {c : Nat} (rest : List Nat) (hc : c ≠ 13) :
    crlfOnly (c :: rest) = crlfOnly rest := by
  rw [crlfOnly.eq_def]
  split
  · next heq => injection heq with e1 _; exact absurd e1 hc
  · next heq => injection heq with e1 _; exact absurd e1 hc
  · next heq => injection heq with _ e2; rw [← e2]
  · next heq => exact absurd heq (by simp)

theorem crlfOnly_13 (rest : List Nat) (h : ∀ t, rest = 10 :: t → False) :
    crlfOnly (13 :: rest) = false := by
  rw [crlfOnly.eq_def]
  split
  · next t heq =>
    exfalso
    injection heq with _ e2
    exact h t e2
  · rfl
  · next hne heq =>
    exfalso
    injection heq with e1 _
    exact hne e1.symm
  · next heq => exact absurd heq (by simp)

theorem crlfNorm_of_noCRLF : ∀ {l : List Nat}, hasCRLF l = false → crlfNorm l = l := by
  intro l
  induction l using crlfNorm.induct with
  | case1 => intro _; rfl
  | case2 rest ih =>
    intro h
    exact absurd h (by rw [show hasCRLF (13 :: 10 :: rest) = true from rfl]; simp)
  | case3 c rest h1 ih =>
    intro h
    rw [hasCRLF_cons c rest h1] at h
    rw [crlfNorm_cons c rest h1, ih h]

theorem hasCRRLF_1310 {rest : List Nat} (h : hasCRRLF (13 :: 10 :: rest) = false) :
    hasCRRLF rest = false :=
  hasCRRLF_cons_false (hasCRRLF_cons_false h)

theorem crlfNorm_eq_10cons {rest t : List Nat} (h : crlfNorm rest = 10 :: t) :
    (∃ t', rest = 10 :: t') ∨ (∃ t', rest = 13 :: 10 :: t') := by
  cases rest with
  | nil => exact absurd h (by rw [show crlfNorm [] = [] from rfl]; simp)
  | cons a t0 =>
    by_cases ha : a = 13
    · subst ha
      cases t0 with
      | nil =>
        rw [crlfNorm_cons 13 [] (by intro t' _ he; exact absurd he (by simp))] at h
        simp [crlfNorm] at h
      | cons b t1 =>
        by_cases hb : b = 10
        · subst hb; exact Or.inr ⟨t1, rfl⟩
        · rw [crlfNorm_cons 13 (b :: t1)
            (by intro t' _ he; injection he with e1 _; exact hb e1)] at h
          simp at h
    · rw [crlfNorm_cons a t0 (fun t' hc _ => ha hc)] at h
      have he : a = 10 := by injection h
      subst he
      exact Or.inl ⟨t0, rfl⟩

theorem hasCRLF_crlfNorm : ∀ {l : List Nat}, hasCRRLF l = false →
    hasCRLF (crlfNorm l) = false := by
  intro l
  induction l using crlfNorm.induct with
  | case1 => intro _; rfl
  | case2 rest ih =>
    intro h
    rw [show crlfNorm (13 :: 10 :: rest) = 10 :: crlfNorm rest from rfl]
    rw [hasCRLF_cons 10 _ (by intro t' h10 _; exact absurd h10 (by decide))]
    exact ih (hasCRRLF_1310 h)
  | case3 c rest h1 ih =>
    intro h
    have hrest := hasCRRLF_cons_false h
    rw [crlfNorm_cons c rest h1]
    rw [hasCRLF_cons c (crlfNorm rest) ?hside]
    · exact ih hrest
    case hside =>
      intro t' hc he
      subst hc
      rcases crlfNorm_eq_10cons he with ⟨t2, ht⟩ | ⟨t2, ht⟩
      · exact h1 t2 rfl ht
      · subst ht
        rw [show hasCRRLF (13 :: 13 :: 10 :: t2) = true from rfl] at h
        exact absurd h (by simp)

theorem crlfNorm_idem {l : List Nat} (h : hasCRRLF l = false) :
    crlfNorm (crlfNorm l) = crlfNorm l :=
  crlfNorm_of_noCRLF (hasCRLF_crlfNorm h)

theorem crlfOnly_no13 : ∀ {l : List Nat}, crlfOnly l = true → 13 ∉ crlfNorm l := by
  intro l
  induction l using crlfNorm.induct with
  | case1 => intro _ hmem; exact absurd hmem (by rw [show crlfNorm [] = [] from rfl]; simp)
  | case2 rest ih =>
    intro h hmem
    rw [show crlfOnly (13 :: 10 :: rest) = crlfOnly rest from rfl] at h
    rw [show crlfNorm (13 :: 10 :: rest) = 10 :: crlfNorm rest from rfl] at hmem
    rcases List.mem_cons.mp hmem with he | hmem
    · exact absurd he (by decide)
    · exact ih h hmem
  | case3 c rest h1 ih =>
    intro h hmem
    by_cases hc : c = 13
    · subst hc
      rw [crlfOnly_13 rest (fun t ht => h1 t rfl ht)] at h
      exact absurd h (by simp)
    · rw [crlfOnly_cons_ne rest hc] at h
      rw [crlfNorm_cons c rest (fun t' he _ => hc he)] at hmem
      rcases List.mem_cons.mp hmem with he | hmem
      · exact hc he.symm
      · exact ih h hmem

theorem sendTextLoop_stop_at (hkl : Layout) (stop : Nat → Bool) :
    ∀ (i : Nat) (l : List Nat) (k : Nat) (s : SynthSt),
      i < l.length → (∀ j, j < i → stop (k + j) = false) → stop (k + i) = true →
      (∀ c ∈ l, c ≠ 0) →
      (sendTextLoop hkl stop okAll l k s).sent = l.take i ∧
      (sendTextLoop hkl stop okAll l k s).evals = k + i + 1 ∧
      (sendTextLoop hkl stop okAll l k s).res = true := by
  intro i
  induction i with
  | zero =>
    intro l k s hlen _ hstop _
    match l with
    | r :: rest =>
      have hk : stop k = true := hstop
      simp [sendTextLoop, hk]
  | succ i ih =>
    intro l k s hlen hfalse hstop hnz
    match l, hlen with
    | r :: rest, hlen =>
      have hk : stop k = false := hfalse 0 (Nat.succ_pos i)
      have hrest : ∀ c ∈ rest, c ≠ 0 := fun c hc => hnz c (List.mem_cons_of_mem r hc)
      have hfalse' : ∀ j, j < i → stop (k + 1 + j) = false := by
        intro j hj
        have := hfalse (j + 1) (by omega)
        simpa [Nat.add_assoc, Nat.add_comm 1 j] using this
      have hstop' : stop (k + 1 + i) = true := by
        have : k + 1 + i = k + (i + 1) := by omega
        rw [this]; exact hstop
      have hlen' : i < rest.length := by simpa using hlen
      by_cases hr : r = 10
      · have hok := sendEnter_okAll hkl s
        have hih := ih rest (k + 1) (sendEnter hkl okAll s).1 hlen' hfalse' hstop' hrest
        simp only [sendTextLoop, hk, hr, if_true, if_false, Bool.false_eq_true]
        simp only [hok, if_false, Bool.true_eq_false, ite_false]
        refine ⟨?_, ?_, ?_⟩
        · simp [hih.1]
        · simp only [hih.2.1]; omega
        · simp [hih.2.2]
      · have hnr : r ≠ 0 := hnz r (List.mem_cons_self r rest)
        have hok := sendCharPhysical_okAll r hkl hnr s
        have hih := ih rest (k + 1) (sendCharPhysical r hkl okAll s).1 hlen' hfalse' hstop' hrest
        simp only [sendTextLoop, hk, hr, if_false, Bool.false_eq_true, ite_false]
        simp only [hok, Bool.true_eq_false, ite_false]
        refine ⟨?_, ?_, ?_⟩
        · simp [hih.1]
        · simp only [hih.2.1]; omega
        · simp [hih.2.2]

theorem sendTextLoop_noStop (hkl : Layout) (stop : Nat → Bool)
    (hstop : ∀ n, stop n = false) :
    ∀ (l : List Nat) (k : Nat) (s : SynthSt), (∀ c ∈ l, c ≠ 0) →
      (sendTextLoop hkl stop okAll l k s).sent = l ∧
      (sendTextLoop hkl stop okAll l k s).evals = k + l.length ∧
      (sendTextLoop hkl stop okAll l k s).res = true := by
  intro l
  induction l with
  | nil => intro k s _; simp [sendTextLoop]
  | cons r rest ih =>
    intro k s hnz
    have hrest : ∀ c ∈ rest, c ≠ 0 := fun c hc => hnz c (List.mem_cons_of_mem r hc)
    by_cases hr : r = 10
    · have hok := sendEnter_okAll hkl s
      have hih := ih (k + 1) (sendEnter hkl okAll s).1 hrest
      simp only [sendTextLoop, hstop k, hr, if_true, Bool.false_eq_true, ite_false]
      simp only [hok, Bool.true_eq_false, ite_false]
      refine ⟨by simp [hih.1], by simp only [hih.2.1]; simp; omega, by simp [hih.2.2]⟩
    · have hnr : r ≠ 0 := hnz r (List.mem_cons_self r rest)
      have hok := sendCharPhysical_okAll r hkl hnr s
      have hih := ih (k + 1) (sendCharPhysical r hkl okAll s).1 hrest
      simp only [sendTextLoop, hstop k, hr, Bool.false_eq_true, ite_false]
      simp only [hok, Bool.true_eq_false, ite_false]
      refine ⟨by simp [hih.1], by simp only [hih.2.1]; simp; omega, by simp [hih.2.2]⟩

theorem sendTextLoop_okAll_res (hkl : Layout) (stop : Nat → Bool) :
    ∀ (l : List Nat) (k : Nat) (s : SynthSt), (∀ c ∈ l, c ≠ 0) →
      (sendTextLoop hkl stop okAll l k s).res = true := by
  intro l
  induction l with
  | nil => intro k s _; rfl
  | cons r rest ih =>
    intro k s hnz
    have hrest : ∀ c ∈ rest, c ≠ 0 := fun c hc => hnz c (List.mem_cons_of_mem r hc)
    by_cases hk : stop k
    · simp [sendTextLoop, hk]
    · by_cases hr : r = 10
      · have hok := sendEnter_okAll hkl s
        simp [sendTextLoop, hk, hr, hok, ih (k + 1) _ hrest]
      · have hok := sendCharPhysical_okAll r hkl (hnz r (List.mem_cons_self r rest)) s
        simp [sendTextLoop, hk, hr, hok, ih (k + 1) _ hrest]

theorem sendTextLoop_sent_sub (hkl : Layout) (stop ok : Nat → Bool) :
    ∀ (l : List Nat) (k : Nat) (s : SynthSt) (c : Nat),
      c ∈ (sendTextLoop hkl stop ok l k s).sent → c ∈ l := by
  intro l
  induction l with
  | nil => intro k s c h; simp [sendTextLoop] at h
  | cons r rest ih =>
    intro k s c h
    by_cases hk : stop k
    · simp [sendTextLoop, hk] at h
    · rw [sendTextLoop, if_neg hk] at h
      by_cases hr : r = 10
      · rw [if_pos hr] at h
        simp only [] at h
        split at h <;> simp only [List.mem_cons] at h ⊢
        · rcases h with h | h
          · exact Or.inl h
          · exact absurd h (List.not_mem_nil c)
        · rcases h with h | h
          · exact Or.inl h
          · exact Or.inr (ih _ _ c h)
      · rw [if_neg hr] at h
        simp only [] at h
        split at h <;> simp only [List.mem_cons] at h ⊢
        · rcases h with h | h
          · exact Or.inl h
          · exact absurd h (List.not_mem_nil c)
        · rcases h with h | h
          · exact Or.inl h
          · exact Or.inr (ih _ _ c h)

/-- C1: the claim — release events always balance press events on every
execution path of `sendCharPhysical` — fails on the code.  For a
character whose modifier byte is 0x03 (Shift+Ctrl), when the
`SendInput` call pressing Ctrl fails (the second call of the run), the
source returns the error without releasing the already-pressed Shift:
the trace holds one modifier press and no release, a stuck Shift. -/
theorem claim_C1_stuck_shift :
    (sendCharPhysical 228 layoutShiftCtrl (fun n => decide (n ≠ 1)) ⟨0, []⟩).2 = false ∧
    (sendCharPhysical 228 layoutShiftCtrl (fun n => decide (n ≠ 1)) ⟨0, []⟩).1.trace =
      [Ev.vk 0x10 true] ∧
    modPresses
      (sendCharPhysical 228 layoutShiftCtrl (fun n => decide (n ≠ 1)) ⟨0, []⟩).1.trace = 1 ∧
    modReleases
      (sendCharPhysical 228 layoutShiftCtrl (fun n => decide (n ≠ 1)) ⟨0, []⟩).1.trace = 0 := by
  decide

/-- C2: when the OS reports modifier byte exactly 0x06, the synthesizer
emits exactly one right-Alt (scan 0x38, extended) press/release pair
around the key tap and never presses the left Ctrl or left Alt virtual
keys; when the Ctrl and Alt bits are not both set, Ctrl and Alt are
pressed individually as virtual keys and no right-Alt scan event is
emitted. -/
theorem claim_C2_altgr (hkl : Layout) (r vk shift : Nat)
    (hmap : vkKeyScanEx r hkl = some (vk, shift))
    (hsc : mapVirtualKeyEx vk hkl ≠ 0) :
    (shift = 0x06 →
      (sendCharPhysical r hkl okAll ⟨0, []⟩).1.trace =
        [Ev.scan 0x38 true true,
         Ev.scan (mapVirtualKeyEx vk hkl) (isExtendedVK vk) true,
         Ev.scan (mapVirtualKeyEx vk hkl) (isExtendedVK vk) false,
         Ev.scan 0x38 true false] ∧
      (sendCharPhysical r hkl okAll ⟨0, []⟩).2 = true) ∧
    (shift &&& 0x06 ≠ 0x06 →
      (sendCharPhysical r hkl okAll ⟨0, []⟩).1.trace =
        modDownsIndiv shift ++
          [Ev.scan (mapVirtualKeyEx vk hkl) (isExtendedVK vk) true,
           Ev.scan (mapVirtualKeyEx vk hkl) (isExtendedVK vk) false] ++
          modUpsIndiv shift ∧
      (sendCharPhysical r hkl okAll ⟨0, []⟩).2 = true) := by
  have hstep : sendCharPhysical r hkl okAll ⟨0, []⟩ =
      sendCharCore (mapVirtualKeyEx vk hkl) (isExtendedVK vk) shift okAll ⟨0, []⟩ := by
    rw [sendCharPhysical.eq_def, hmap]
    simp only []
    rw [if_neg hsc]
  rw [hstep]
  constructor
  · intro h6
    subst h6
    rw [sendCharCore_altgr]
    exact ⟨by simp, rfl⟩
  · intro hne
    have h := sendCharCore_indiv (mapVirtualKeyEx vk hkl) (isExtendedVK vk) shift hne ⟨0, []⟩
    exact ⟨by rw [h.1]; simp, h.2⟩

/-- C2 witness: under a layout where '@' (64) carries modifier byte
0x06 the trace is one AltGr pair around the tap, and under a layout
where 'ä' (228) carries byte 0x03 the trace presses Shift and Ctrl
individually. -/
theorem claim_C2_witness :
    (sendCharPhysical 64 layoutAltGr okAll ⟨0, []⟩).1.trace =
      [Ev.scan 0x38 true true, Ev.scan 16 false true, Ev.scan 16 false false,
       Ev.scan 0x38 true false] ∧
    (sendCharPhysical 228 layoutShiftCtrl okAll ⟨0, []⟩).1.trace =
      [Ev.vk 0x10 true, Ev.vk 0x11 true, Ev.scan 40 false true, Ev.scan 40 false false,
       Ev.vk 0x11 false, Ev.vk 0x10 false] := by
  constructor
  · have h := (claim_C2_altgr layoutAltGr 64 81 6 (by decide) (by decide)).1 rfl
    exact h.1.trans (by decide)
  · have h := (claim_C2_altgr layoutShiftCtrl 228 222 3 (by decide) (by decide)).2 (by decide)
    exact h.1.trans (by decide)

/-- C3: if the stop predicate is false at the first i evaluations'
predecessors and true at evaluation i (one evaluation per character),
the session sends exactly the first i characters of the normalized
text in order, evaluates the predicate i+1 times, and returns nil —
characters from i on are never sent and no character is cut mid-way. -/
theorem claim_C3_cancel_prefix (t : List Nat) (hkl : Layout) (stop : Nat → Bool) (i : Nat)
    (hi : i < (crlfNorm t).length) (hbefore : ∀ j, j < i → stop j = false)
    (hstop : stop i = true) (hnz : ∀ c ∈ t, c ≠ 0) :
    (sendText t hkl stop okAll).sent = (crlfNorm t).take i ∧
    (sendText t hkl stop okAll).evals = i + 1 ∧
    (sendText t hkl stop okAll).res = true := by
  have hnz' : ∀ c ∈ crlfNorm t, c ≠ 0 := fun c hc => hnz c (mem_crlfNorm hc)
  have h := sendTextLoop_stop_at hkl stop i (crlfNorm t) 0 ⟨0, []⟩ hi
    (by intro j hj; simpa using hbefore j hj) (by simpa using hstop) hnz'
  exact ⟨h.1, by have := h.2.1; simpa using this, h.2.2⟩

/-- C3 witness: with a predicate that turns true at the third
evaluation, only the first two of three characters are sent. -/
theorem claim_C3_witness :
    (sendText [97, 98, 99] layoutEmpty (fun n => decide (2 ≤ n)) okAll).sent = [97, 98] ∧
    (sendText [97, 98, 99] layoutEmpty (fun n => decide (2 ≤ n)) okAll).evals = 3 := by
  have h := claim_C3_cancel_prefix [97, 98, 99] layoutEmpty (fun n => decide (2 ≤ n)) 2
    (by decide) (by decide) (by decide) (by decide)
  exact ⟨h.1.trans (by decide), h.2.1⟩

/-- C4 counterexample: in a state where the claimed predicate fires —
stop flag unset, AbortOnFocusChange enabled, foreground window 0
different from target window 1 — the code's predicate (the bare stop
flag, `main.go:1832`) is false and the session still types the
character, so the claimed focus-abort predicate is not what the code
evaluates. -/
theorem claim_C4_cex :
    cancelPredClaim false true 0 1 = true ∧
    shouldStopGo false = false ∧
    (sendText [97] layoutEmpty (fun _ => shouldStopGo false) okAll).sent = [97] := by
  decide

/-- C4 amended: before each character the session evaluates only the
explicit stop flag; the foreground window and the AbortOnFocusChange
configuration field are never consulted, so the typed prefix depends
only on that flag — everything is sent when it stays false, nothing
when it is already set. -/
theorem claim_C4_flag_only (t : List Nat) (hkl : Layout) (flag : Bool)
    (hnz : ∀ c ∈ t, c ≠ 0) :
    (sendText t hkl (fun _ => shouldStopGo flag) okAll).sent =
      (if flag = true then [] else crlfNorm t) ∧
    (sendText t hkl (fun _ => shouldStopGo flag) okAll).res = true := by
  cases flag with
  | false =>
    have h := sendTextLoop_noStop hkl (fun _ => shouldStopGo false) (fun _ => rfl)
      (crlfNorm t) 0 ⟨0, []⟩ (fun c hc => hnz c (mem_crlfNorm hc))
    refine ⟨?_, h.2.2⟩
    unfold sendText
    rw [h.1]
    simp
  | true =>
    cases hcl : crlfNorm t with
    | nil =>
      unfold sendText
      rw [hcl]
      exact ⟨rfl, rfl⟩
    | cons r rest =>
      unfold sendText
      rw [hcl]
      simp [sendTextLoop, shouldStopGo]

/-- C4 witness: a two-character text is fully sent when the flag stays
false and not at all when the flag is already set. -/
theorem claim_C4_witness :
    (sendText [97, 10] layoutEmpty (fun _ => shouldStopGo true) okAll).sent = [] ∧
    (sendText [97, 10] layoutEmpty (fun _ => shouldStopGo false) okAll).sent = [97, 10] := by
  constructor
  · exact (claim_C4_flag_only [97, 10] layoutEmpty true (by decide)).1.trans (by decide)
  · exact (claim_C4_flag_only [97, 10] layoutEmpty false (by decide)).1.trans (by decide)

set_option maxRecDepth 40000 in
/-- C5: the automatic speed heuristic gives 0 ms to texts of at most
200 runes and at most 5 lines, and otherwise the larger of the line
count and runes/200 clamped to [10, 50]; in particular 150 runes on
one line give 0 ms, 1000 runes on one line give 10 ms, and 60
one-rune lines give 50 ms. -/
theorem claim_C5_auto_delay :
    (∀ t : List Nat,
      getPerCharDelayAuto t =
        if t.length ≤ 200 ∧ 1 + (t.filter (fun c => c = 10)).length ≤ 5 then 0
        else min 50 (max 10
          (max (1 + (t.filter (fun c => c = 10)).length) (t.length / 200)))) ∧
    getPerCharDelayAuto (List.replicate 150 97) = 0 ∧
    getPerCharDelayAuto (List.replicate 1000 97) = 10 ∧
    getPerCharDelayAuto ((List.replicate 59 [97, 10]).flatten ++ [97]) = 50 := by
  refine ⟨?_, by decide, by decide, by decide⟩
  intro t
  unfold getPerCharDelayAuto
  by_cases h : t.length ≤ 200 ∧ 1 + (t.filter (fun c => c = 10)).length ≤ 5
  · rw [if_pos h, if_pos h]
  · rw [if_neg h, if_neg h]
    simp only []
    split_ifs <;> omega

/-- C6: the claim fails on the code.  When hook installation fails the
caller only shows the warning status; the Windows source contains no
polling tracker, so after a failed install no foreground change ever
produces an onChange notification — the claimed polling fallback does
not exist. -/
theorem claim_C6_no_polling_fallback (ops : StrOps) (selfExe : List Nat)
    (events : List FgEvent) :
    (startupForegroundTracking false).warningStatusShown = true ∧
    (startupForegroundTracking false).pollingStarted = false ∧
    foregroundNotifications ops selfExe false events = [] :=
  ⟨rfl, rfl, rfl⟩

/-- C7: for every rune above the BMP (and within Unicode), the mapper
reports not-present without consulting the layout, and the character is
sent through the Unicode fallback as its UTF-16 surrogate pair — high
surrogate before low surrogate, one code unit per SendInput call (two
calls in total) — successfully. -/
theorem claim_C7_nonbmp (r : Nat) (hkl : Layout) (h1 : 0xFFFF < r) (h2 : r ≤ 0x10FFFF) :
    vkKeyScanEx r hkl = none ∧
    (sendCharPhysical r hkl okAll ⟨0, []⟩).1.trace =
      [Ev.uni (0xD800 + (r - 0x10000) / 0x400) true,
       Ev.uni (0xD800 + (r - 0x10000) / 0x400) false,
       Ev.uni (0xDC00 + (r - 0x10000) % 0x400) true,
       Ev.uni (0xDC00 + (r - 0x10000) % 0x400) false] ∧
    (sendCharPhysical r hkl okAll ⟨0, []⟩).1.calls = 2 ∧
    (sendCharPhysical r hkl okAll ⟨0, []⟩).2 = true := by
  have hnone : vkKeyScanEx r hkl = none := by rw [vkKeyScanEx, if_pos h1]
  have hstep : sendCharPhysical r hkl okAll ⟨0, []⟩ =
      sendCharPhysicalFallback r okAll ⟨0, []⟩ := by
    rw [sendCharPhysical.eq_def, hnone]
  rw [hstep, sendCharPhysicalFallback_surrogate r h1 h2]
  exact ⟨hnone, rfl, rfl, rfl⟩

/-- C7 witness: U+1F600 is rejected by the mapper and sent as the
surrogate pair D83D DE00, high unit first. -/
theorem claim_C7_witness :
    vkKeyScanEx 0x1F600 layoutEmpty = none ∧
    (sendCharPhysical 0x1F600 layoutEmpty okAll ⟨0, []⟩).1.trace =
      [Ev.uni 0xD83D true, Ev.uni 0xD83D false, Ev.uni 0xDE00 true, Ev.uni 0xDE00 false] := by
  have h := claim_C7_nonbmp 0x1F600 layoutEmpty (by decide) (by decide)
  exact ⟨h.1, h.2.1.trans (by decide)⟩

/-- C8: window enumeration never fails (it is a total function whose
result is empty when nothing passes the filter), the result is sorted
case-insensitively by title, and every returned entry comes from a
visible window that passed the ignore filter — its trimmed title is
non-empty, matches no ignored substring, and its process is not the
running process. -/
theorem claim_C8_enum (ops : StrOps) (selfExe : List Nat) (ws : List RawWin)
    (hself : selfExe ≠ []) :
    List.Pairwise (fun a b => winLe ops a b = true) (enumWindows ops selfExe ws) ∧
    (∀ v ∈ enumWindows ops selfExe ws, ∃ w ∈ ws,
      w.visible = true ∧
      shouldIgnoreWindow ops selfExe w.title w.exe = false ∧
      v = ⟨w.hwnd, trimS ops w.title⟩ ∧
      trimS ops w.title ≠ [] ∧
      (∀ sub ∈ ignoredTitleSubstringsLower,
        containsL sub (lowerS ops (trimS ops w.title)) = false) ∧
      w.exe ≠ selfExe) ∧
    ((∀ w ∈ ws, w.visible = false ∨ shouldIgnoreWindow ops selfExe w.title w.exe = true) →
      enumWindows ops selfExe ws = []) := by
  haveI instTot : IsTotal WinInfo (fun a b => winLe ops a b = true) := ⟨winLe_total ops⟩
  haveI instTr : IsTrans WinInfo (fun a b => winLe ops a b = true) :=
    ⟨fun a b c => winLe_trans ops a b c⟩
  refine ⟨?_, ?_, ?_⟩
  · exact List.sorted_insertionSort _ _
  · intro v hv
    unfold enumWindows at hv
    rw [List.mem_insertionSort] at hv
    rw [List.mem_filterMap] at hv
    obtain ⟨w, hw, heq⟩ := hv
    by_cases hcond : w.visible && !(shouldIgnoreWindow ops selfExe w.title w.exe)
    · rw [if_pos hcond] at heq
      injection heq with heq
      rw [Bool.and_eq_true, Bool.not_eq_true'] at hcond
      have hfacts := shouldIgnoreWindow_false_facts ops selfExe w.title w.exe hself hcond.2
      exact ⟨w, hw, hcond.1, hcond.2, heq.symm, hfacts.1, hfacts.2.1, hfacts.2.2⟩
    · rw [if_neg hcond] at heq
      exact absurd heq (by simp)
  · intro hall
    unfold enumWindows
    have hnil : ws.filterMap (fun w =>
        if w.visible && !(shouldIgnoreWindow ops selfExe w.title w.exe)
        then some (⟨w.hwnd, trimS ops w.title⟩ : WinInfo) else none) = [] := by
      rw [List.filterMap_eq_nil_iff]
      intro w hw
      rcases hall w hw with hvis | hign
      · rw [if_neg (by simp [hvis])]
      · rw [if_neg (by simp [hign])]
    rw [hnil]
    rfl

/-- C8 witness: a concrete enumeration with a self-owned window, a
whitespace-titled window, an ignored shell window and an invisible
window keeps only the two real windows, sorted case-insensitively. -/
theorem claim_C8_witness :
    strCodes "goclip.exe" ≠ [] ∧
    List.Pairwise (fun a b => winLe asciiOps a b = true)
      (enumWindows asciiOps (strCodes "goclip.exe")
        [⟨1, true, strCodes " Notepad ", strCodes "notepad.exe"⟩,
         ⟨2, true, strCodes "goclip", strCodes "goclip.exe"⟩,
         ⟨3, true, strCodes "   ", []⟩,
         ⟨4, true, strCodes "Program Manager", strCodes "explorer.exe"⟩,
         ⟨5, false, strCodes "Hidden", []⟩,
         ⟨6, true, strCodes "alpha", []⟩]) ∧
    enumWindows asciiOps (strCodes "goclip.exe")
        [⟨1, true, strCodes " Notepad ", strCodes "notepad.exe"⟩,
         ⟨2, true, strCodes "goclip", strCodes "goclip.exe"⟩,
         ⟨3, true, strCodes "   ", []⟩,
         ⟨4, true, strCodes "Program Manager", strCodes "explorer.exe"⟩,
         ⟨5, false, strCodes "Hidden", []⟩,
         ⟨6, true, strCodes "alpha", []⟩] =
      [⟨6, strCodes "alpha"⟩, ⟨1, strCodes "Notepad"⟩] := by
  refine ⟨by decide, ?_, by decide⟩
  exact (claim_C8_enum asciiOps (strCodes "goclip.exe") _ (by decide)).1

/-- C9 counterexample: on the text CR CR LF one normalization pass
yields CR LF, so `sendText` types a carriage-return character and an
Enter, while `sendText` of the CRLF-normalized text types only an
Enter — the claimed equivalence (and the claim that no CR is ever
sent) fails. -/
theorem claim_C9_cex :
    crlfNorm [13, 13, 10] = [13, 10] ∧
    (sendText [13, 13, 10] layoutEmpty stopNever okAll).sent = [13, 10] ∧
    (sendText (crlfNorm [13, 13, 10]) layoutEmpty stopNever okAll).sent = [10] ∧
    sendText [13, 13, 10] layoutEmpty stopNever okAll ≠
      sendText (crlfNorm [13, 13, 10]) layoutEmpty stopNever okAll ∧
    13 ∈ (sendText [13, 13, 10] layoutEmpty stopNever okAll).sent := by
  decide

/-- C9 amended: `sendText` normalizes CRLF to LF in one left-to-right
pass before iterating; for every text containing no CR CR LF
subsequence the pass is idempotent and `sendText` of the text is
identical to `sendText` of the normalized text, and for every text
whose every CR starts a CRLF pair no carriage-return character is ever
sent. -/
theorem claim_C9_norm (t : List Nat) (hkl : Layout) (stop ok : Nat → Bool) :
    (hasCRRLF t = false →
      sendText t hkl stop ok = sendText (crlfNorm t) hkl stop ok) ∧
    (crlfOnly t = true → 13 ∉ (sendText t hkl stop ok).sent) := by
  constructor
  · intro h
    unfold sendText
    rw [crlfNorm_idem h]
  · intro h hmem
    exact crlfOnly_no13 h (sendTextLoop_sent_sub hkl stop ok (crlfNorm t) 0 ⟨0, []⟩ 13 hmem)

/-- C9 witness: a text with one CRLF line ending behaves exactly like
its normalized form and never sends a CR. -/
theorem claim_C9_witness :
    sendText [97, 13, 10, 98] layoutEmpty stopNever okAll =
      sendText [97, 10, 98] layoutEmpty stopNever okAll ∧
    13 ∉ (sendText [97, 13, 10, 98] layoutEmpty stopNever okAll).sent := by
  have h := claim_C9_norm [97, 13, 10, 98] layoutEmpty stopNever okAll
  exact ⟨h.1 (by decide), h.2 (by decide)⟩

/-- C10: when the stop predicate is already true at the first check,
`sendText` emits no key events and returns nil; with no OS failure a
run returns nil whether or not it was cancelled, so cancellation is
never surfaced as an error; and the caller's outcome classification
reports a cancelled run as stopped regardless of the error value. -/
theorem claim_C10_cancel_nil (t : List Nat) (hkl : Layout) (stop ok : Nat → Bool) :
    (stop 0 = true →
      (sendText t hkl stop ok).st.trace = [] ∧
      (sendText t hkl stop ok).sent = [] ∧
      (sendText t hkl stop ok).res = true) ∧
    ((∀ c ∈ t, c ≠ 0) → (sendText t hkl stop okAll).res = true) ∧
    (∀ e : Bool, typeOutcome true e = Outcome.stopped) := by
  refine ⟨?_, ?_, ?_⟩
  · intro h0
    cases hcl : crlfNorm t with
    | nil =>
      unfold sendText
      rw [hcl]
      exact ⟨rfl, rfl, rfl⟩
    | cons r rest =>
      unfold sendText
      rw [hcl]
      simp [sendTextLoop, h0]
  · intro hnz
    exact sendTextLoop_okAll_res hkl stop (crlfNorm t) 0 ⟨0, []⟩
      (fun c hc => hnz c (mem_crlfNorm hc))
  · intro e
    rfl

/-- C10 witness: with the stop predicate already true, a one-character
text produces no events and a nil result. -/
theorem claim_C10_witness :
    (sendText [97] layoutEmpty (fun _ => true) okAll).st.trace = [] ∧
    (sendText [97] layoutEmpty (fun _ => true) okAll).sent = [] ∧
    (sendText [97] layoutEmpty (fun _ => true) okAll).res = true :=
  (claim_C10_cancel_nil [97] layoutEmpty (fun _ => true) okAll).1 rfl
